import Mathlib

/-!
Verification of the frame serializer and the user-idle watchdog of the
pipecat repository.

The serializer is embedded from
`examples/exotel-websocket/custom/serializers/exotel.py`, the watchdog from
`src/pipecat/processors/user_idle_processor.py`.  Python byte strings are
`List Nat` (each element a byte value `< 256`), JSON documents are a `Json`
value, and `json.dumps`/`json.loads` - which are a bijection between the
`Json` values produced here and their textual form - are modelled by working
directly with `Json` values: `serialize` returns the `Json` value whose dump
the Python code returns, and `deserialize` receives the result of
`json.loads`, with `none` standing for input on which `json.loads` raises.
-/

/-- A JSON document, as produced by Python `json.loads`: objects keep their
key order, numbers are restricted to the integers (no payload in this
protocol is a float). -/
inductive Json where
  | null : Json
  | bool (b : Bool) : Json
  | num (n : Int) : Json
  | str (s : String) : Json
  | arr (xs : List Json) : Json
  | obj (kvs : List (String × Json)) : Json

/-- Association-list lookup used for Python `dict["key"]` on a parsed JSON
object (first binding wins; `json.loads` never produces duplicate keys). -/
def lookupKv : List (String × Json) → String → Option Json
  | [], _ => none
  | (k', v) :: rest, k => if k' = k then some v else lookupKv rest k

/-- Python subscript `message[k]` on a parsed JSON value: `none` models the
`KeyError`/`TypeError` raised when the key is absent or the value is not a
dict. -/
def jsonGet : Json → String → Option Json
  | .obj kvs, k => lookupKv kvs k
  | _, _ => none

/-- Python `value == s` for a parsed JSON value and a string literal: true
exactly when the value is that string. -/
def jsonEqString (v : Json) (s : String) : Bool :=
  match v with
  | .str t => t = s
  | _ => false

/-! ## base64 (Python `base64.b64encode` / `base64.b64decode`) -/

/-- The standard base64 alphabet. -/
def b64Chars : List Char :=
  ['A','B','C','D','E','F','G','H','I','J','K','L','M','N','O','P',
   'Q','R','S','T','U','V','W','X','Y','Z',
   'a','b','c','d','e','f','g','h','i','j','k','l','m','n','o','p',
   'q','r','s','t','u','v','w','x','y','z',
   '0','1','2','3','4','5','6','7','8','9','+','/']

/-- Digit value `n < 64` to base64 character. -/
def b64Char (n : Nat) : Char := b64Chars.getD n '='

/-- Base64 character back to its digit value; `none` for characters outside
the alphabet. -/
def b64Index (c : Char) : Option Nat := b64Chars.findIdx? (fun c' => c' = c)

/-- Core of `base64.b64encode`: bytes to base64 characters, three bytes at a
time, `=`-padded. -/
def b64encodeList : List Nat → List Char
  | [] => []
  | [a] => [b64Char (a / 4), b64Char (a % 4 * 16), '=', '=']
  | [a, b] => [b64Char (a / 4), b64Char (a % 4 * 16 + b / 16), b64Char (b % 16 * 4), '=']
  | a :: b :: c :: rest =>
      b64Char (a / 4) :: b64Char (a % 4 * 16 + b / 16) ::
      b64Char (b % 16 * 4 + c / 64) :: b64Char (c % 64) :: b64encodeList rest

/-- Python `base64.b64encode(..).decode("utf-8")`. -/
def b64encode (bs : List Nat) : String := String.mk (b64encodeList bs)

/-- Core of `base64.b64decode`: four characters at a time, `=`-padding only
at the very end; `none` models the `binascii.Error` raised on malformed
input. -/
def b64decodeList : List Char → Option (List Nat)
  | [] => some []
  | c1 :: c2 :: c3 :: c4 :: rest =>
      if c3 = '=' then
        if c4 = '=' ∧ rest = [] then do
          let v1 ← b64Index c1
          let v2 ← b64Index c2
          pure [v1 * 4 + v2 / 16]
        else none
      else if c4 = '=' then
        if rest = [] then do
          let v1 ← b64Index c1
          let v2 ← b64Index c2
          let v3 ← b64Index c3
          pure [v1 * 4 + v2 / 16, v2 % 16 * 16 + v3 / 4]
        else none
      else do
        let v1 ← b64Index c1
        let v2 ← b64Index c2
        let v3 ← b64Index c3
        let v4 ← b64Index c4
        let tail ← b64decodeList rest
        pure ((v1 * 4 + v2 / 16) :: (v2 % 16 * 16 + v3 / 4) :: (v3 % 4 * 64 + v4) :: tail)
  | _ => none

/-- Python `base64.b64decode` on a string. -/
def b64decode (s : String) : Option (List Nat) := b64decodeList s.data

/-! ## Audio codec

`pcm_to_ulaw` and `ulaw_to_pcm` are imported by the serializer from
`pipecat.audio.utils`, whose source is not part of this repository snapshot;
they are modelled from the spec below. -/

/-- A byte pair (little endian) read as a signed 16-bit PCM sample. -/
def i16OfNat (n : Nat) : Int := if n < 32768 then (n : Int) else (n : Int) - 65536

/-- Successive little-endian byte pairs of a PCM byte string as signed
samples (an incomplete trailing byte carries no sample). -/
def pcm16OfBytes : List Nat → List Int
  | lo :: hi :: rest => i16OfNat (lo % 256 + 256 * (hi % 256)) :: pcm16OfBytes rest
  | _ => []

/-- Signed 16-bit samples back to little-endian bytes. -/
def bytesOfPcm16 : List Int → List Nat
  | [] => []
  | s :: rest => (s % 65536).toNat % 256 :: (s % 65536).toNat / 256 :: bytesOfPcm16 rest

/-- Modelled from the spec: sample-rate conversion inside
`pipecat.audio.utils.pcm_to_ulaw` / `ulaw_to_pcm` (source not under `src/`).
Nearest-sample resampling from `in_rate` to `out_rate`: the output holds
`n * out_rate / in_rate` samples, preserving the audio duration up to one
output sample. -/
def resamplePcm (samples : List Int) (in_rate out_rate : Nat) : List Int :=
  (List.range (samples.length * out_rate / in_rate)).map
    (fun k => samples.getD (k * in_rate / out_rate) 0)

/-- Segment number of a biased u-law magnitude. -/
def ulawExponent (m : Nat) : Nat :=
  if m < 256 then 0 else if m < 512 then 1 else if m < 1024 then 2
  else if m < 2048 then 3 else if m < 4096 then 4 else if m < 8192 then 5
  else if m < 16384 then 6 else 7

/-- Modelled from the spec: the "8 kHz logarithmic PCM companding" wire codec
(G.711 u-law), one byte per 16-bit sample. -/
def ulawEncodeSample (s : Int) : Nat :=
  let sign := if s < 0 then 128 else 0
  let mag := min s.natAbs 32635 + 132
  let exponent := ulawExponent mag
  let mantissa := mag / 2 ^ (exponent + 3) % 16
  255 - (sign + exponent * 16 + mantissa)

/-- Modelled from the spec: u-law byte back to a linear 16-bit sample. -/
def ulawDecodeByte (b : Nat) : Int :=
  let u := 255 - b % 256
  let exponent := u / 16 % 8
  let mantissa := u % 16
  let mag : Int := ((mantissa * 8 + 132) * 2 ^ exponent : Nat) - 132
  if u / 128 = 1 then -mag else mag

/-- Modelled from the spec: `pipecat.audio.utils.pcm_to_ulaw(data, in_rate,
out_rate)` (source not under `src/`): per the spec the serializer "encodes
PCM audio to the external protocol's required audio codec and sample rate" -
16-bit linear PCM bytes at `in_rate` are resampled to `out_rate` and
companded to one u-law byte per sample. -/
def pcm_to_ulaw (data : List Nat) (in_rate out_rate : Nat) : List Nat :=
  (resamplePcm (pcm16OfBytes data) in_rate out_rate).map ulawEncodeSample

/-- Modelled from the spec: `pipecat.audio.utils.ulaw_to_pcm(data, in_rate,
out_rate)` (source not under `src/`): u-law bytes at `in_rate` are expanded
to 16-bit linear PCM and resampled to `out_rate`. -/
def ulaw_to_pcm (data : List Nat) (in_rate out_rate : Nat) : List Nat :=
  bytesOfPcm16 (resamplePcm (data.map ulawDecodeByte) in_rate out_rate)

/-! ## Frames

The closed frame taxonomy, one variant per `pipecat.frames.frames` class the
two embedded components dispatch on; `otherFrame` stands for every remaining
frame class (none of which either component treats specially). -/

inductive Frame where
  | audioRaw (audio : List Nat) (sample_rate : Nat) (num_channels : Nat) : Frame
  | startInterruption : Frame
  | userStartedSpeaking : Frame
  | userStoppedSpeaking : Frame
  | botSpeaking : Frame
  | endFrame : Frame
  | endTask : Frame
  | otherFrame : Frame
deriving DecidableEq

/-- Python `isinstance(frame, AudioRawFrame)`. -/
def Frame.isAudioRaw : Frame → Bool
  | .audioRaw _ _ _ => true
  | _ => false

/-- Python `isinstance(frame, StartInterruptionFrame)`. -/
def Frame.isStartInterruption : Frame → Bool
  | .startInterruption => true
  | _ => false

/-- Python `isinstance(frame, (EndFrame, EndTaskFrame))`. -/
def Frame.isEndKind : Frame → Bool
  | .endFrame => true
  | .endTask => true
  | _ => false

/-! ## Exotel serializer (`examples/exotel-websocket/custom/serializers/exotel.py`) -/

/-- `ExotelFrameSerializer.InputParams`: configuration of the codec adapter,
with the spec's default internal PCM rate of 8000 Hz. -/
structure ExotelFrameSerializer.InputParams where
  sample_rate : Nat := 8000
deriving DecidableEq

/-- The serializer object: `__init__` stores the stream id and the params. -/
structure ExotelFrameSerializer where
  stream_sid : String
  params : ExotelFrameSerializer.InputParams

/-- `ExotelFrameSerializer.serialize`: an `AudioRawFrame` becomes the media
envelope (PCM companded to u-law at the configured rate, then base64), a
`StartInterruptionFrame` becomes the clear envelope, and every other frame
returns `None`.  The method reads but never writes the serializer's
attributes, so it is a pure function of the serializer and the frame. -/
def ExotelFrameSerializer.serialize (self : ExotelFrameSerializer) (frame : Frame) :
    Option Json :=
  match frame with
  | .audioRaw data sample_rate _ =>
      let serialized_data := pcm_to_ulaw data sample_rate self.params.sample_rate
      let payload := b64encode serialized_data
      some (.obj [("event", .str "media"),
                  ("streamSid", .str self.stream_sid),
                  ("media", .obj [("payload", .str payload)])])
  | .startInterruption =>
      some (.obj [("event", .str "clear"), ("streamSid", .str self.stream_sid)])
  | _ => none

/-- The exceptions `ExotelFrameSerializer.deserialize` can let escape:
`json.loads` failure, a failing subscript (`KeyError`/`TypeError`), and
`base64.b64decode` failure. -/
inductive DeserializeError where
  | jsonDecodeError : DeserializeError
  | keyError : DeserializeError
  | base64Error : DeserializeError
deriving DecidableEq

/-- `ExotelFrameSerializer.deserialize`: the argument is the outcome of
`json.loads(data)` (`none` when it raises, which the method does not guard).
A parsed envelope whose `"event"` is not the string `"media"` yields no
frame; a media envelope has its payload base64-decoded, expanded from u-law
to PCM at the configured rate, and returned as a mono `AudioRawFrame`. -/
def ExotelFrameSerializer.deserialize (self : ExotelFrameSerializer)
    (data : Option Json) : Except DeserializeError (Option Frame) :=
  match data with
  | none => .error .jsonDecodeError
  | some message =>
    match jsonGet message "event" with
    | none => .error .keyError
    | some ev =>
      if jsonEqString ev "media" = false then
        .ok none
      else
        match jsonGet message "media" with
        | none => .error .keyError
        | some mediaVal =>
          match jsonGet mediaVal "payload" with
          | none => .error .keyError
          | some (.str payload_base64) =>
              match b64decode payload_base64 with
              | none => .error .base64Error
              | some payload =>
                  let deserialized_data :=
                    ulaw_to_pcm payload self.params.sample_rate self.params.sample_rate
                  .ok (some (.audioRaw deserialized_data self.params.sample_rate 1))
          | some _ => .error .base64Error

/-- Channel count of a successful audio deserialization (projection used to
state counterexamples without spelling out the sample bytes). -/
def deserializedNumChannels : Except DeserializeError (Option Frame) → Option Nat
  | .ok (some (.audioRaw _ _ c)) => some c
  | _ => none

/-- Byte length of a successfully deserialized audio payload. -/
def deserializedAudioLen : Except DeserializeError (Option Frame) → Option Nat
  | .ok (some (.audioRaw a _ _)) => some a.length
  | _ => none

/-! ## User idle watchdog (`src/pipecat/processors/user_idle_processor.py`)

The watchdog is asyncio code: `process_frame` runs in the pipeline context
while `_idle_task_handler` loops in a background task, the two meeting at the
handler's single suspension point `asyncio.wait_for(self._idle_event.wait(),
timeout=self._timeout)`.  The embedding is a timed transition system: a run
is a list of timestamped events - a frame handed to `process_frame`, or the
background task's `wait_for` completing either because the event was set
(`wakeEvent`) or because the timeout elapsed (`wakeTimeout`) - and each event
updates the processor state atomically, which is faithful because the Python
handler bodies contain no interior suspension between their state writes.
The documented race between a frame arriving and the timer expiring at the
same instant is represented by both trace orders being valid. -/

/-- The mutable attributes of a `UserIdleProcessor` instance: `_running`,
`_interrupted`, the `_idle_event` flag, and whether `_idle_task` has
finished. -/
structure UserIdleProcessor where
  running : Bool
  interrupted : Bool
  idle_event : Bool
  task_done : Bool
deriving DecidableEq

/-- `UserIdleProcessor.cleanup`: `self._idle_task.cancel()` followed by
`await self._idle_task`.  If the task still waits at its suspension point,
the cancellation is caught (`except asyncio.CancelledError: break`), the
`finally` clause clears the event, and the task finishes; if the task is
already done, both calls are no-ops.  Either way the method returns only
once the task has stopped. -/
def UserIdleProcessor.cleanup (self : UserIdleProcessor) : UserIdleProcessor :=
  if self.task_done then self
  else { self with task_done := true, idle_event := false }

/-- `UserIdleProcessor.process_frame`: an End/EndTask frame stops the
processor, wakes the idle task and awaits `cleanup()`; afterwards (and only
while `_running`) the activity frames update `_interrupted` and set the idle
event.  `push_frame` only forwards the frame and touches no processor state,
so it does not appear. -/
def UserIdleProcessor.process_frame (self : UserIdleProcessor) (frame : Frame) :
    UserIdleProcessor :=
  let s1 :=
    if frame.isEndKind then
      UserIdleProcessor.cleanup { self with running := false, idle_event := true }
    else self
  if s1.running then
    match frame with
    | .userStartedSpeaking => { s1 with interrupted := true, idle_event := true }
    | .userStoppedSpeaking => { s1 with interrupted := false, idle_event := true }
    | .botSpeaking => { s1 with idle_event := true }
    | _ => s1
  else s1

/-- The state right after `__init__`: running, not interrupted, a fresh
(cleared) `_idle_event`, and the idle task started. -/
def initProcessor : UserIdleProcessor :=
  { running := true, interrupted := false, idle_event := false, task_done := false }

/-- One observable event of a watchdog run: a frame delivered to
`process_frame` at time `t`, or the background task's `wait_for` returning
at time `t` - `wakeEvent` because `_idle_event` was set, `wakeTimeout`
because the full timeout elapsed with the event clear. -/
inductive Ev where
  | frame (t : Nat) (f : Frame) : Ev
  | wakeEvent (t : Nat) : Ev
  | wakeTimeout (t : Nat) : Ev
deriving DecidableEq

/-- The timestamp of an event. -/
def Ev.time : Ev → Nat
  | .frame t _ => t
  | .wakeEvent t => t
  | .wakeTimeout t => t

/-- Global state of a run: the processor attributes, the instant the current
`wait_for` began, the current time, and the times at which the idle callback
has fired (most recent first). -/
structure WState where
  proc : UserIdleProcessor
  waitStart : Nat
  now : Nat
  fires : List Nat
deriving DecidableEq

/-- Run state at construction time (taken as time 0): the idle task enters
its first `wait_for` immediately and no callback has fired. -/
def initState : WState :=
  { proc := initProcessor, waitStart := 0, now := 0, fires := [] }

/-- Whether an event can occur in state `s`: time never decreases; a wake
requires the task to still be alive, `wakeEvent` requires `_idle_event` to
be set, and `wakeTimeout` happens exactly `timeout` after the wait began,
with the event still clear (otherwise `wait_for` would not raise
`TimeoutError`). -/
def okEv (timeout : Nat) (s : WState) : Ev → Bool
  | .frame t _ => decide (s.now ≤ t)
  | .wakeEvent t =>
      decide (s.now ≤ t) && s.proc.idle_event && !s.proc.task_done
  | .wakeTimeout t =>
      decide (s.now ≤ t) && decide (t = s.waitStart + timeout) &&
      !s.proc.idle_event && !s.proc.task_done

/-- Effect of one event.  A frame runs `process_frame`.  A wake runs one
iteration of `_idle_task_handler`: on `TimeoutError` the callback fires if
`_interrupted` is clear; in both wake cases the `finally` clears the event,
the loop re-checks `_running` (finishing the task if it was cleared), and a
new `wait_for` starts at the wake time. -/
def wstep (s : WState) (e : Ev) : WState :=
  match e with
  | .frame t f => { s with proc := s.proc.process_frame f, now := t }
  | .wakeEvent t =>
      { s with
        proc := { s.proc with idle_event := false,
                              task_done := !s.proc.running || s.proc.task_done },
        waitStart := t, now := t }
  | .wakeTimeout t =>
      { s with
        proc := { s.proc with idle_event := false,
                              task_done := !s.proc.running || s.proc.task_done },
        waitStart := t, now := t,
        fires := if s.proc.interrupted then s.fires else t :: s.fires }

/-- Execute a candidate run: `none` when some event is impossible in the
state it would occur in. -/
def runEvents (timeout : Nat) (s : WState) : List Ev → Option WState
  | [] => some s
  | e :: evs => if okEv timeout s e then runEvents timeout (wstep s e) evs else none

/-- Channel count of an audio frame (projection used to state claims). -/
def Frame.numChannelsOf : Frame → Option Nat
  | .audioRaw _ _ c => some c
  | _ => none

/-- The instant up to which every `UserStoppedSpeaking` processed so far is
certainly covered by the current wait window: while `_idle_event` is set the
next wake will re-arm at a time at least `now`; once it is clear, the window
has been armed since `waitStart`. -/
def wbound (s : WState) : Nat := if s.proc.idle_event then s.now else s.waitStart

/-- Run invariant of the watchdog transition system, relating the state
reached to the events processed:
times of processed events never exceed `now`; the wait window is armed no
later than `now`; every recorded callback firing happened between `timeout`
and `now`; once `_running` is cleared the idle task has finished; while the
task lives and `_interrupted` is clear, every processed `UserStartedSpeaking`
has a matching later `UserStoppedSpeaking` no later than `wbound`; and every
firing that follows a `UserStartedSpeaking` is separated from a matching
`UserStoppedSpeaking` by at least a full timeout. -/
def WInv (timeout : Nat) (evs : List Ev) (s : WState) : Prop :=
  (∀ e ∈ evs, e.time ≤ s.now) ∧
  s.waitStart ≤ s.now ∧
  (∀ tf ∈ s.fires, timeout ≤ tf ∧ tf ≤ s.now) ∧
  (s.proc.running = false → s.proc.task_done = true) ∧
  (s.proc.task_done = false → s.proc.interrupted = false →
    ∀ t0, Ev.frame t0 .userStartedSpeaking ∈ evs →
      ∃ t1, Ev.frame t1 .userStoppedSpeaking ∈ evs ∧ t0 ≤ t1 ∧ t1 ≤ wbound s) ∧
  (∀ tf ∈ s.fires, ∀ t0, Ev.frame t0 .userStartedSpeaking ∈ evs → t0 < tf →
    ∃ t1, Ev.frame t1 .userStoppedSpeaking ∈ evs ∧ t0 ≤ t1 ∧ t1 + timeout ≤ tf)

/-! ## Supporting lemmas -/

theorem b64Index_b64Char : ∀ n, n < 64 → b64Index (b64Char n) = some n := by decide

theorem b64Char_ne_pad : ∀ n, n < 64 → b64Char n ≠ '=' := by decide

theorem b64decodeList_encodeList :
    ∀ bs : List Nat, (∀ x ∈ bs, x < 256) → b64decodeList (b64encodeList bs) = some bs
  | [], _ => rfl
  | [a], hb => by
      have ha : a < 256 := hb a (by simp)
      simp only [b64encodeList, b64decodeList, if_true, and_self]
      rw [b64Index_b64Char _ (by omega), b64Index_b64Char _ (by omega)]
      simp <;> omega
  | [a, b], hb => by
      have ha : a < 256 := hb a (by simp)
      have hbb : b < 256 := hb b (by simp)
      simp only [b64encodeList, b64decodeList]
      rw [if_neg (b64Char_ne_pad _ (by omega))]
      simp only [if_true]
      rw [b64Index_b64Char _ (by omega), b64Index_b64Char _ (by omega),
          b64Index_b64Char _ (by omega)]
      simp <;> omega
  | a :: b :: c :: rest, hb => by
      have ha : a < 256 := hb a (by simp)
      have hbb : b < 256 := hb b (by simp)
      have hc : c < 256 := hb c (by simp)
      have ih := b64decodeList_encodeList rest
        (fun x hx => hb x (by simp at hx ⊢; tauto))
      simp only [b64encodeList, b64decodeList]
      rw [if_neg (b64Char_ne_pad _ (by omega)), if_neg (b64Char_ne_pad _ (by omega)),
          b64Index_b64Char _ (by omega), b64Index_b64Char _ (by omega),
          b64Index_b64Char _ (by omega), b64Index_b64Char _ (by omega), ih]
      simp <;> omega

theorem pcm16OfBytes_length : ∀ l : List Nat, (pcm16OfBytes l).length = l.length / 2
  | [] => rfl
  | [_] => by simp [pcm16OfBytes]
  | _ :: _ :: rest => by
      have := pcm16OfBytes_length rest
      simp only [pcm16OfBytes, List.length_cons, this]
      omega

theorem bytesOfPcm16_length : ∀ l : List Int, (bytesOfPcm16 l).length = 2 * l.length
  | [] => rfl
  | _ :: rest => by
      have := bytesOfPcm16_length rest
      simp only [bytesOfPcm16, List.length_cons, this]
      omega

theorem resamplePcm_length (samples : List Int) (in_rate out_rate : Nat) :
    (resamplePcm samples in_rate out_rate).length
      = samples.length * out_rate / in_rate := by
  simp [resamplePcm]

theorem ulawEncodeSample_lt (s : Int) : ulawEncodeSample s < 256 := by
  unfold ulawEncodeSample
  dsimp only
  omega

theorem jsonEqString_eq_false {v : Json} {s : String} (h : v ≠ .str s) :
    jsonEqString v s = false := by
  cases v <;> simp only [jsonEqString] <;> try rfl
  simp only [decide_eq_false_iff_not]
  intro hts
  exact h (by rw [hts])

theorem deserialize_media_envelope (S : ExotelFrameSerializer) (p : String) (bs : List Nat)
    (hp : b64decode p = some bs) :
    S.deserialize (some (.obj [("event", .str "media"), ("streamSid", .str S.stream_sid),
        ("media", .obj [("payload", .str p)])]))
      = .ok (some (.audioRaw (ulaw_to_pcm bs S.params.sample_rate S.params.sample_rate)
          S.params.sample_rate 1)) := by
  simp [ExotelFrameSerializer.deserialize, jsonGet, lookupKv, jsonEqString, hp]

/-! ## Claim theorems: serializer -/

/-- C1: for every StartInterruption frame, `serialize` returns exactly the
JSON clear-event envelope `{"event": "clear", "streamSid": "<id>"}` where
`<id>` is the `stream_sid` the serializer was constructed with. -/
theorem serialize_start_interruption_clear_envelope
    (sid : String) (params : ExotelFrameSerializer.InputParams) :
    ExotelFrameSerializer.serialize ⟨sid, params⟩ .startInterruption
      = some (.obj [("event", .str "clear"), ("streamSid", .str sid)]) := rfl

/-- C4: for input on which `json.loads` fails (`none` here), `deserialize`
surfaces the decode error to the caller instead of returning a frame or no
frame: the `json.loads(data)` call is not guarded, so the exception
propagates. -/
theorem deserialize_unparseable_is_error (S : ExotelFrameSerializer) :
    S.deserialize none = .error .jsonDecodeError := rfl

/-- C3: every well-formed JSON envelope whose `"event"` value is anything
other than the string `"media"` deserializes to no frame (`ok none`), not an
error. -/
theorem deserialize_non_media_yields_none (S : ExotelFrameSerializer)
    (msg v : Json) (hget : jsonGet msg "event" = some v)
    (hne : v ≠ .str "media") :
    S.deserialize (some msg) = .ok none := by
  simp only [ExotelFrameSerializer.deserialize, hget, jsonEqString_eq_false hne]
  simp

/-- Witness for C3 at the spec's own example, an envelope with event
`"ping"`. -/
theorem deserialize_non_media_yields_none_witness :
    jsonGet (.obj [("event", .str "ping")]) "event" = some (.str "ping") ∧
    Json.str "ping" ≠ Json.str "media" ∧
    ExotelFrameSerializer.deserialize ⟨"MZtest", ⟨8000⟩⟩
        (some (.obj [("event", .str "ping")])) = .ok none :=
  ⟨rfl, fun h => by injection h with h'; exact absurd h' (by decide),
   deserialize_non_media_yields_none ⟨"MZtest", ⟨8000⟩⟩ _ _ rfl
     (fun h => by injection h with h'; exact absurd h' (by decide))⟩

/-- C5: for every AudioRaw frame, `serialize` returns the JSON media
envelope whose payload is the base64 encoding of the frame's PCM audio
companded to u-law at the configured sample rate, and the configured rate
defaults to 8000. -/
theorem serialize_audio_media_envelope
    (sid : String) (params : ExotelFrameSerializer.InputParams)
    (data : List Nat) (rate channels : Nat) :
    ExotelFrameSerializer.serialize ⟨sid, params⟩ (.audioRaw data rate channels)
      = some (.obj [("event", .str "media"), ("streamSid", .str sid),
          ("media", .obj [("payload",
            .str (b64encode (pcm_to_ulaw data rate params.sample_rate)))])])
    ∧ ({} : ExotelFrameSerializer.InputParams).sample_rate = 8000 :=
  ⟨rfl, rfl⟩

/-- C10: every frame that is neither an AudioRaw frame nor a
StartInterruption frame serializes to `None`; `serialize` writes no
attribute of the serializer, so its state is unchanged by construction. -/
theorem serialize_unhandled_frames_none (S : ExotelFrameSerializer) (f : Frame)
    (h1 : f.isAudioRaw = false) (h2 : f.isStartInterruption = false) :
    S.serialize f = none := by
  cases f <;> simp_all [Frame.isAudioRaw, Frame.isStartInterruption,
    ExotelFrameSerializer.serialize]

/-- Witness for C10 at a BotSpeaking frame. -/
theorem serialize_unhandled_frames_none_witness :
    Frame.botSpeaking.isAudioRaw = false ∧
    Frame.botSpeaking.isStartInterruption = false ∧
    ExotelFrameSerializer.serialize ⟨"MZw", ⟨8000⟩⟩ .botSpeaking = none :=
  ⟨rfl, rfl, serialize_unhandled_frames_none ⟨"MZw", ⟨8000⟩⟩ .botSpeaking rfl rfl⟩

/-- C2 counterexample: the round trip does not preserve the channel count.
A stereo AudioRaw frame (2 channels) serializes and deserializes to a frame
with 1 channel, because `deserialize` hard-codes `num_channels=1`. -/
theorem serialize_roundtrip_channel_counterexample :
    Frame.numChannelsOf (.audioRaw [1, 0, 2, 0] 8000 2) = some 2 ∧
    deserializedNumChannels (ExotelFrameSerializer.deserialize ⟨"MZc", ⟨8000⟩⟩
        (ExotelFrameSerializer.serialize ⟨"MZc", ⟨8000⟩⟩ (.audioRaw [1, 0, 2, 0] 8000 2)))
      = some 1 := by
  constructor
  · rfl
  · decide

/-- C2 as amended: for every mono AudioRaw frame, serializing then
deserializing yields a mono audio frame at the configured rate `P` whose
sample count is `n * P / r` for `n` input samples at rate `r` - the same
duration up to codec rounding (the last two conjuncts bound the rounding by
one output sample: `m * r ≤ n * P < (m + 1) * r`). -/
theorem serialize_roundtrip_mono_audio (sid : String) (P r : Nat) (data : List Nat)
    (hP : 0 < P) (hr : 0 < r) :
    ∃ wire out,
      ExotelFrameSerializer.serialize ⟨sid, ⟨P⟩⟩ (.audioRaw data r 1) = some wire ∧
      ExotelFrameSerializer.deserialize ⟨sid, ⟨P⟩⟩ (some wire)
        = .ok (some (.audioRaw out P 1)) ∧
      out.length = 2 * (data.length / 2 * P / r) ∧
      data.length / 2 * P / r * r ≤ data.length / 2 * P ∧
      data.length / 2 * P < (data.length / 2 * P / r + 1) * r := by
  have hbytes : ∀ x ∈ pcm_to_ulaw data r P, x < 256 := by
    intro x hx
    simp only [pcm_to_ulaw, List.mem_map] at hx
    obtain ⟨s, _, rfl⟩ := hx
    exact ulawEncodeSample_lt s
  have hdec : b64decode (b64encode (pcm_to_ulaw data r P)) = some (pcm_to_ulaw data r P) :=
    b64decodeList_encodeList _ hbytes
  have hlen1 : (pcm_to_ulaw data r P).length = data.length / 2 * P / r := by
    simp [pcm_to_ulaw, resamplePcm_length, pcm16OfBytes_length]
  have hlen2 : (ulaw_to_pcm (pcm_to_ulaw data r P) P P).length
      = 2 * (data.length / 2 * P / r) := by
    simp only [ulaw_to_pcm, bytesOfPcm16_length, resamplePcm_length, List.length_map,
      hlen1]
    rw [Nat.mul_div_cancel _ hP]
  refine ⟨_, _, rfl, deserialize_media_envelope ⟨sid, ⟨P⟩⟩ _ _ hdec, hlen2, ?_, ?_⟩
  · exact Nat.div_mul_le_self _ _
  · calc data.length / 2 * P
        = r * (data.length / 2 * P / r) + data.length / 2 * P % r :=
          (Nat.div_add_mod _ _).symm
      _ < r * (data.length / 2 * P / r) + r :=
          Nat.add_lt_add_left (Nat.mod_lt _ hr) _
      _ = (data.length / 2 * P / r + 1) * r := by ring

/-- Witness for the amended C2 at a concrete two-sample mono frame. -/
theorem serialize_roundtrip_mono_audio_witness :
    (0 : Nat) < 8000 ∧
    (∃ wire out,
      ExotelFrameSerializer.serialize ⟨"MZm", ⟨8000⟩⟩ (.audioRaw [1, 0, 2, 0] 8000 1)
        = some wire ∧
      ExotelFrameSerializer.deserialize ⟨"MZm", ⟨8000⟩⟩ (some wire)
        = .ok (some (.audioRaw out 8000 1)) ∧
      out.length = 2 * (([1, 0, 2, 0] : List Nat).length / 2 * 8000 / 8000) ∧
      ([1, 0, 2, 0] : List Nat).length / 2 * 8000 / 8000 * 8000
        ≤ ([1, 0, 2, 0] : List Nat).length / 2 * 8000 ∧
      ([1, 0, 2, 0] : List Nat).length / 2 * 8000
        < (([1, 0, 2, 0] : List Nat).length / 2 * 8000 / 8000 + 1) * 8000) :=
  ⟨by decide,
   serialize_roundtrip_mono_audio "MZm" 8000 8000 [1, 0, 2, 0] (by decide) (by decide)⟩

/-! ## Watchdog lemmas -/

theorem process_frame_end_state (p : UserIdleProcessor) (f : Frame)
    (hf : f.isEndKind = true) :
    p.process_frame f = if p.task_done
      then { p with running := false, idle_event := true }
      else { p with running := false, idle_event := false, task_done := true } := by
  by_cases ht : p.task_done <;>
    cases f <;>
      simp_all [UserIdleProcessor.process_frame, UserIdleProcessor.cleanup, Frame.isEndKind]

theorem process_frame_end_flags (p : UserIdleProcessor) (f : Frame)
    (hf : f.isEndKind = true) :
    (p.process_frame f).running = false ∧ (p.process_frame f).task_done = true ∧
    (p.process_frame f).interrupted = p.interrupted := by
  rw [process_frame_end_state p f hf]
  split <;> simp_all

theorem process_frame_not_running (p : UserIdleProcessor) (f : Frame)
    (hr : p.running = false) (ht : p.task_done = true) :
    p.process_frame f = if f.isEndKind then { p with idle_event := true } else p := by
  cases p
  cases f <;>
    simp_all [UserIdleProcessor.process_frame, UserIdleProcessor.cleanup, Frame.isEndKind]

theorem runEvents_append (timeout : Nat) (s : WState) (xs ys : List Ev) :
    runEvents timeout s (xs ++ ys)
      = (runEvents timeout s xs).bind (fun s1 => runEvents timeout s1 ys) := by
  induction xs generalizing s with
  | nil => rfl
  | cons e xs ih =>
      simp only [List.cons_append, runEvents]
      split
      · exact ih _
      · rfl

theorem fires_mono (timeout : Nat) :
    ∀ (evs : List Ev) (s s1 : WState), runEvents timeout s evs = some s1 →
      ∀ x ∈ s.fires, x ∈ s1.fires := by
  intro evs
  induction evs with
  | nil =>
      intro s s1 h x hx
      simp only [runEvents] at h
      cases h
      exact hx
  | cons e evs ih =>
      intro s s1 h x hx
      simp only [runEvents] at h
      split at h
      · refine ih _ _ h x ?_
        cases e with
        | frame t f => exact hx
        | wakeEvent t => exact hx
        | wakeTimeout t =>
            simp only [wstep]
            split <;> simp [hx]
      · cases h

theorem process_frame_rt (p : UserIdleProcessor) (f : Frame)
    (h : p.running = false → p.task_done = true) :
    (p.process_frame f).running = false → (p.process_frame f).task_done = true := by
  by_cases hend : f.isEndKind = true
  · intro
    exact (process_frame_end_flags p f hend).2.1
  · cases f <;> simp_all [UserIdleProcessor.process_frame, Frame.isEndKind] <;>
      split_ifs <;> simp_all

theorem process_frame_started_running (p : UserIdleProcessor) (hr : p.running = true) :
    p.process_frame .userStartedSpeaking
      = { p with interrupted := true, idle_event := true } := by
  simp [UserIdleProcessor.process_frame, Frame.isEndKind, hr]

theorem process_frame_stopped_running (p : UserIdleProcessor) (hr : p.running = true) :
    p.process_frame .userStoppedSpeaking
      = { p with interrupted := false, idle_event := true } := by
  simp [UserIdleProcessor.process_frame, Frame.isEndKind, hr]

theorem process_frame_bot_running (p : UserIdleProcessor) (hr : p.running = true) :
    p.process_frame .botSpeaking = { p with idle_event := true } := by
  simp [UserIdleProcessor.process_frame, Frame.isEndKind, hr]

theorem process_frame_passive (p : UserIdleProcessor) (f : Frame)
    (h1 : f ≠ .userStartedSpeaking) (h2 : f ≠ .userStoppedSpeaking)
    (h3 : f ≠ .botSpeaking) (h4 : f.isEndKind = false) :
    p.process_frame f = p := by
  cases f <;> simp_all [UserIdleProcessor.process_frame, Frame.isEndKind]

theorem wbound_le_now (s : WState) (h : s.waitStart ≤ s.now) : wbound s ≤ s.now := by
  unfold wbound
  split <;> omega

theorem WInv_init (timeout : Nat) : WInv timeout [] initState := by
  refine ⟨?_, ?_, ?_, ?_, ?_, ?_⟩ <;> simp [initState, initProcessor, wbound]

theorem WInv_step (timeout : Nat) (evs : List Ev) (s : WState) (e : Ev)
    (hI : WInv timeout evs s) (hok : okEv timeout s e = true) :
    WInv timeout (evs ++ [e]) (wstep s e) := by
  obtain ⟨ha, hws, hf, hrt, hg, hd⟩ := hI
  cases e with
  | frame t f =>
      simp only [okEv, decide_eq_true_eq] at hok
      refine ⟨?_, ?_, ?_, ?_, ?_, ?_⟩
      · intro e' he'
        rcases List.mem_append.1 he' with h | h
        · exact le_trans (ha e' h) hok
        · rw [List.mem_singleton] at h
          subst h
          exact le_refl t
      · exact le_trans hws hok
      · intro tf htf
        exact ⟨(hf tf htf).1, le_trans (hf tf htf).2 hok⟩
      · exact process_frame_rt s.proc f hrt
      · intro htd hint t0 ht0
        replace htd : (s.proc.process_frame f).task_done = false := htd
        replace hint : (s.proc.process_frame f).interrupted = false := hint
        have hwb : wbound (wstep s (.frame t f))
            = if (s.proc.process_frame f).idle_event then t else s.waitStart := rfl
        by_cases hend : f.isEndKind = true
        · rw [(process_frame_end_flags s.proc f hend).2.1] at htd
          cases htd
        · replace hend : f.isEndKind = false := by
            revert hend; cases f.isEndKind <;> simp
          have hstart : Ev.frame t0 Frame.userStartedSpeaking ∈ evs
              ∨ (f = Frame.userStartedSpeaking ∧ t0 = t) := by
            rcases List.mem_append.1 ht0 with h | h
            · exact Or.inl h
            · rw [List.mem_singleton] at h
              injection h with h1 h2
              exact Or.inr ⟨h2.symm, h1⟩
          by_cases hr : s.proc.running = true
          · -- the processor is still running: case on the frame kind
            rcases hstart with hold | ⟨hfs, ht0t⟩
            · -- the started event is an old one
              by_cases hfs : f = Frame.userStartedSpeaking
              · subst hfs
                rw [process_frame_started_running s.proc hr] at hint
                cases hint
              · by_cases hfs2 : f = Frame.userStoppedSpeaking
                · subst hfs2
                  refine ⟨t, List.mem_append.2 (Or.inr (List.mem_singleton.2 rfl)), ?_, ?_⟩
                  · exact le_trans (ha _ hold) hok
                  · rw [hwb, process_frame_stopped_running s.proc hr]
                    simp
                · by_cases hfs3 : f = Frame.botSpeaking
                  · subst hfs3
                    rw [process_frame_bot_running s.proc hr] at htd hint
                    obtain ⟨t1, hs1, h01, hb⟩ := hg htd hint t0 hold
                    refine ⟨t1, List.mem_append.2 (Or.inl hs1), h01, ?_⟩
                    have hwt : wbound (wstep s (.frame t Frame.botSpeaking)) = t := by
                      rw [hwb, process_frame_bot_running s.proc hr]
                      simp
                    rw [hwt]
                    have := wbound_le_now s hws
                    omega
                  · rw [process_frame_passive s.proc f hfs hfs2 hfs3 hend] at htd hint
                    obtain ⟨t1, hs1, h01, hb⟩ := hg htd hint t0 hold
                    refine ⟨t1, List.mem_append.2 (Or.inl hs1), h01, ?_⟩
                    rw [hwb, process_frame_passive s.proc f hfs hfs2 hfs3 hend]
                    have := wbound_le_now s hws
                    unfold wbound at hb
                    split at hb <;> split <;> omega
            · -- the started event is the new frame itself
              subst hfs
              rw [process_frame_started_running s.proc hr] at hint
              cases hint
          · -- not running: the task is already done, contradicting htd
            replace hr : s.proc.running = false := by
              revert hr; cases s.proc.running <;> simp
            have ht : s.proc.task_done = true := hrt hr
            rw [process_frame_not_running s.proc f hr ht,
               apply_ite UserIdleProcessor.task_done] at htd
            simp [ht] at htd
      · intro tf htf t0 ht0 hlt
        replace htf : tf ∈ s.fires := htf
        rcases List.mem_append.1 ht0 with h | h
        · obtain ⟨t1, hs1, h01, hb⟩ := hd tf htf t0 h hlt
          exact ⟨t1, List.mem_append.2 (Or.inl hs1), h01, hb⟩
        · rw [List.mem_singleton] at h
          injection h with h1 h2
          subst h1
          have := (hf tf htf).2
          omega
  | wakeEvent t =>
      simp only [okEv, Bool.and_eq_true, decide_eq_true_eq, Bool.not_eq_true'] at hok
      obtain ⟨⟨h1, h2⟩, h3⟩ := hok
      have hr : s.proc.running = true := by
        cases hR : s.proc.running
        · rw [hrt hR] at h3
          cases h3
        · rfl
      refine ⟨?_, ?_, ?_, ?_, ?_, ?_⟩
      · intro e' he'
        rcases List.mem_append.1 he' with h | h
        · exact le_trans (ha e' h) h1
        · rw [List.mem_singleton] at h
          subst h
          exact le_refl t
      · exact le_refl t
      · intro tf htf
        exact ⟨(hf tf htf).1, le_trans (hf tf htf).2 h1⟩
      · intro hcon
        replace hcon : s.proc.running = false := hcon
        rw [hr] at hcon
        cases hcon
      · intro htd hint t0 ht0
        replace hint : s.proc.interrupted = false := hint
        rcases List.mem_append.1 ht0 with h | h
        · obtain ⟨t1, hs1, h01, hb⟩ := hg h3 hint t0 h
          refine ⟨t1, List.mem_append.2 (Or.inl hs1), h01, ?_⟩
          have hwbs : wbound s = s.now := by simp [wbound, h2]
          have hwb : wbound (wstep s (.wakeEvent t)) = t := rfl
          omega
        · rw [List.mem_singleton] at h
          exact Ev.noConfusion h
      · intro tf htf t0 ht0 hlt
        replace htf : tf ∈ s.fires := htf
        rcases List.mem_append.1 ht0 with h | h
        · obtain ⟨t1, hs1, h01, hb⟩ := hd tf htf t0 h hlt
          exact ⟨t1, List.mem_append.2 (Or.inl hs1), h01, hb⟩
        · rw [List.mem_singleton] at h
          exact Ev.noConfusion h
  | wakeTimeout t =>
      simp only [okEv, Bool.and_eq_true, decide_eq_true_eq, Bool.not_eq_true'] at hok
      obtain ⟨⟨⟨h1, h2⟩, h3⟩, h4⟩ := hok
      have hr : s.proc.running = true := by
        cases hR : s.proc.running
        · rw [hrt hR] at h4
          cases h4
        · rfl
      have hfires : (wstep s (.wakeTimeout t)).fires
          = if s.proc.interrupted then s.fires else t :: s.fires := rfl
      refine ⟨?_, ?_, ?_, ?_, ?_, ?_⟩
      · intro e' he'
        rcases List.mem_append.1 he' with h | h
        · exact le_trans (ha e' h) h1
        · rw [List.mem_singleton] at h
          subst h
          exact le_refl t
      · exact le_refl t
      · intro tf htf
        rw [hfires] at htf
        by_cases hi : s.proc.interrupted = true
        · rw [if_pos hi] at htf
          exact ⟨(hf tf htf).1, le_trans (hf tf htf).2 h1⟩
        · rw [if_neg (by simp [hi])] at htf
          rcases List.mem_cons.1 htf with h | h
          · subst h
            exact ⟨by omega, le_refl tf⟩
          · exact ⟨(hf tf h).1, le_trans (hf tf h).2 h1⟩
      · intro hcon
        replace hcon : s.proc.running = false := hcon
        rw [hr] at hcon
        cases hcon
      · intro htd hint t0 ht0
        replace hint : s.proc.interrupted = false := hint
        rcases List.mem_append.1 ht0 with h | h
        · obtain ⟨t1, hs1, h01, hb⟩ := hg h4 hint t0 h
          refine ⟨t1, List.mem_append.2 (Or.inl hs1), h01, ?_⟩
          have hwbs : wbound s = s.waitStart := by simp [wbound, h3]
          have hwb : wbound (wstep s (.wakeTimeout t)) = t := rfl
          omega
        · rw [List.mem_singleton] at h
          exact Ev.noConfusion h
      · intro tf htf t0 ht0 hlt
        rw [hfires] at htf
        have hstart : Ev.frame t0 Frame.userStartedSpeaking ∈ evs := by
          rcases List.mem_append.1 ht0 with h | h
          · exact h
          · rw [List.mem_singleton] at h
            exact Ev.noConfusion h
        by_cases hi : s.proc.interrupted = true
        · rw [if_pos hi] at htf
          obtain ⟨t1, hs1, h01, hb⟩ := hd tf htf t0 hstart hlt
          exact ⟨t1, List.mem_append.2 (Or.inl hs1), h01, hb⟩
        · rw [if_neg (by simp [hi])] at htf
          rcases List.mem_cons.1 htf with h | h
          · subst h
            obtain ⟨t1, hs1, h01, hb⟩ := hg h4 (by simpa using hi) t0 hstart
            refine ⟨t1, List.mem_append.2 (Or.inl hs1), h01, ?_⟩
            have hwbs : wbound s = s.waitStart := by simp [wbound, h3]
            omega
          · obtain ⟨t1, hs1, h01, hb⟩ := hd tf h t0 hstart hlt
            exact ⟨t1, List.mem_append.2 (Or.inl hs1), h01, hb⟩

theorem WInv_run (timeout : Nat) :
    ∀ (evs : List Ev) (s1 : WState),
      runEvents timeout initState evs = some s1 → WInv timeout evs s1 := by
  intro evs
  induction evs using List.reverseRecOn with
  | nil =>
      intro s1 h
      simp only [runEvents] at h
      cases h
      exact WInv_init timeout
  | append_singleton xs e ih =>
      intro s1 h
      rw [runEvents_append] at h
      cases hx : runEvents timeout initState xs with
      | none => rw [hx] at h; cases h
      | some s0 =>
          rw [hx] at h
          simp only [Option.some_bind, runEvents] at h
          split at h
          · cases h
            exact WInv_step timeout xs s0 e (ih s0 hx) (by assumption)
          · cases h

theorem run_stable (timeout : Nat) :
    ∀ (evs : List Ev) (s s1 : WState),
      s.proc.task_done = true → s.proc.running = false →
      runEvents timeout s evs = some s1 →
      s1.fires = s.fires ∧ s1.proc.interrupted = s.proc.interrupted ∧
      s1.proc.task_done = true ∧ s1.proc.running = false := by
  intro evs
  induction evs with
  | nil =>
      intro s s1 ht hr h
      simp only [runEvents] at h
      cases h
      exact ⟨rfl, rfl, ht, hr⟩
  | cons e evs ih =>
      intro s s1 ht hr h
      simp only [runEvents] at h
      split at h
      case isFalse => cases h
      case isTrue hok =>
        cases e with
        | frame t f =>
            have hstep : (wstep s (.frame t f)).proc = s.proc.process_frame f := rfl
            rw [process_frame_not_running s.proc f hr ht] at hstep
            by_cases hend : f.isEndKind = true
            · rw [hend] at hstep
              simp only [if_true] at hstep
              obtain ⟨h1, h2, h3, h4⟩ := ih (wstep s (.frame t f)) s1
                (by rw [hstep]; exact ht) (by rw [hstep]; exact hr) h
              refine ⟨h1, ?_, h3, h4⟩
              rw [h2, hstep]
            · replace hend : f.isEndKind = false := by
                revert hend; cases f.isEndKind <;> simp
              rw [hend] at hstep
              simp only [Bool.false_eq_true, if_false] at hstep
              obtain ⟨h1, h2, h3, h4⟩ := ih (wstep s (.frame t f)) s1
                (by rw [hstep]; exact ht) (by rw [hstep]; exact hr) h
              refine ⟨h1, ?_, h3, h4⟩
              rw [h2, hstep]
        | wakeEvent t =>
            simp only [okEv, Bool.and_eq_true, Bool.not_eq_true'] at hok
            rw [ht] at hok
            cases hok.2
        | wakeTimeout t =>
            simp only [okEv, Bool.and_eq_true, Bool.not_eq_true'] at hok
            rw [ht] at hok
            cases hok.2

/-! ## Claim theorems: idle watchdog -/

/-- C6: with timeout `T`, (1) in every run without activity frames each
callback firing happens at time at least `T` and, as soon as the run
contains any event at all (the earliest possible one being the timer expiry
at exactly `T`), the callback has fired at least once; (2) in every run in
which a UserStartedSpeaking frame arrives before `T` elapses, any callback
firing happens only after a subsequent UserStoppedSpeaking followed by at
least a further full timeout. -/
theorem idle_watchdog_timeout_behavior (timeout : Nat) (hT : 0 < timeout) :
    (∀ evs s1, (∀ t f, Ev.frame t f ∉ evs) →
      runEvents timeout initState evs = some s1 →
      ((∀ tf ∈ s1.fires, timeout ≤ tf) ∧ (evs ≠ [] → s1.fires ≠ []))) ∧
    (∀ evs s1 t0, runEvents timeout initState evs = some s1 →
      Ev.frame t0 Frame.userStartedSpeaking ∈ evs → t0 < timeout →
      ∀ tf ∈ s1.fires, ∃ t1, Ev.frame t1 Frame.userStoppedSpeaking ∈ evs ∧
        t0 ≤ t1 ∧ t1 + timeout ≤ tf) := by
  constructor
  · intro evs s1 hnf h
    constructor
    · intro tf htf
      exact ((WInv_run timeout evs s1 h).2.2.1 tf htf).1
    · intro hne
      cases evs with
      | nil => exact absurd rfl hne
      | cons e rest =>
          simp only [runEvents] at h
          split at h
          case isFalse => cases h
          case isTrue hok =>
            cases e with
            | frame t f => exact absurd (List.mem_cons_self _ _) (hnf t f)
            | wakeEvent t => simp [okEv, initState, initProcessor] at hok
            | wakeTimeout t =>
                have hmem : t ∈ (wstep initState (.wakeTimeout t)).fires := by
                  simp [wstep, initState, initProcessor]
                have hin := fires_mono timeout rest _ s1 h t hmem
                intro hemp
                rw [hemp] at hin
                simp at hin
  · intro evs s1 t0 h hmem hlt tf htf
    have hI := WInv_run timeout evs s1 h
    have h1 : timeout ≤ tf := (hI.2.2.1 tf htf).1
    exact hI.2.2.2.2.2 tf htf t0 hmem (by omega)

/-- Witness for C6: a run with a lone timer expiry at time 2 fires at 2, and
a run interrupted at time 1, released at time 3 and expiring at 5 fires only
at 5 = 3 + timeout. -/
theorem idle_watchdog_timeout_behavior_witness :
    ((∀ tf ∈ (⟨⟨true, false, false, false⟩, 2, 2, [2]⟩ : WState).fires, 2 ≤ tf) ∧
      ([Ev.wakeTimeout 2] ≠ ([] : List Ev) →
        (⟨⟨true, false, false, false⟩, 2, 2, [2]⟩ : WState).fires ≠ [])) ∧
    (∀ tf ∈ (⟨⟨true, false, false, false⟩, 5, 5, [5]⟩ : WState).fires,
      ∃ t1, Ev.frame t1 Frame.userStoppedSpeaking ∈
          [Ev.frame 1 Frame.userStartedSpeaking, Ev.frame 3 Frame.userStoppedSpeaking,
           Ev.wakeEvent 3, Ev.wakeTimeout 5] ∧ 1 ≤ t1 ∧ t1 + 2 ≤ tf) :=
  ⟨(idle_watchdog_timeout_behavior 2 (by decide)).1 [Ev.wakeTimeout 2] _
      (by intro t f hmem; simp at hmem) (by decide),
   (idle_watchdog_timeout_behavior 2 (by decide)).2
      [Ev.frame 1 Frame.userStartedSpeaking, Ev.frame 3 Frame.userStoppedSpeaking,
       Ev.wakeEvent 3, Ev.wakeTimeout 5] _ 1 (by decide) (by decide) (by decide)⟩

/-- C7: while the processor is running, UserStartedSpeaking sets the
interrupted flag (and wakes the timer), UserStoppedSpeaking clears it (and
wakes the timer), BotSpeaking wakes the timer leaving every other attribute
- in particular the interrupted flag - unchanged, and no other frame kind
changes the interrupted flag. -/
theorem process_frame_activity_transitions (p : UserIdleProcessor) (f : Frame)
    (hrun : p.running = true) :
    (f = .userStartedSpeaking → p.process_frame f
        = { p with interrupted := true, idle_event := true }) ∧
    (f = .userStoppedSpeaking → p.process_frame f
        = { p with interrupted := false, idle_event := true }) ∧
    (f = .botSpeaking → p.process_frame f = { p with idle_event := true }) ∧
    (f ≠ .userStartedSpeaking → f ≠ .userStoppedSpeaking →
      (p.process_frame f).interrupted = p.interrupted) := by
  refine ⟨?_, ?_, ?_, ?_⟩
  · rintro rfl
    exact process_frame_started_running p hrun
  · rintro rfl
    exact process_frame_stopped_running p hrun
  · rintro rfl
    exact process_frame_bot_running p hrun
  · intro h1 h2
    by_cases hend : f.isEndKind = true
    · exact (process_frame_end_flags p f hend).2.2
    · by_cases h3 : f = .botSpeaking
      · subst h3
        rw [process_frame_bot_running p hrun]
      · rw [process_frame_passive p f h1 h2 h3
          (by revert hend; cases f.isEndKind <;> simp)]

/-- Witness for C7 at a freshly constructed processor and a BotSpeaking
frame. -/
theorem process_frame_activity_transitions_witness :
    (Frame.botSpeaking = Frame.userStartedSpeaking →
        initProcessor.process_frame Frame.botSpeaking
          = { initProcessor with interrupted := true, idle_event := true }) ∧
    (Frame.botSpeaking = Frame.userStoppedSpeaking →
        initProcessor.process_frame Frame.botSpeaking
          = { initProcessor with interrupted := false, idle_event := true }) ∧
    (Frame.botSpeaking = Frame.botSpeaking →
        initProcessor.process_frame Frame.botSpeaking
          = { initProcessor with idle_event := true }) ∧
    (Frame.botSpeaking ≠ Frame.userStartedSpeaking →
      Frame.botSpeaking ≠ Frame.userStoppedSpeaking →
      (initProcessor.process_frame Frame.botSpeaking).interrupted
        = initProcessor.interrupted) :=
  process_frame_activity_transitions initProcessor .botSpeaking rfl

/-- C8: once an End or EndTask frame has been processed, the background task
has already been awaited to completion when `process_frame` returns (so
`cleanup()` inside it returned only after the timer task stopped), the
processor is stopped, and over any continuation of the run the callback
never fires again and the interrupted flag never changes. -/
theorem idle_end_stops_callbacks (timeout t : Nat) (f : Frame) (evs1 evs2 : List Ev)
    (s1 s2 : WState) (hf : f.isEndKind = true)
    (h1 : runEvents timeout initState (evs1 ++ [.frame t f]) = some s1)
    (h2 : runEvents timeout initState (evs1 ++ [.frame t f] ++ evs2) = some s2) :
    s1.proc.task_done = true ∧ s1.proc.running = false ∧
    s2.fires = s1.fires ∧ s2.proc.interrupted = s1.proc.interrupted := by
  have hmid : runEvents timeout s1 evs2 = some s2 := by
    rw [runEvents_append, h1] at h2
    simpa using h2
  have hflags : s1.proc.task_done = true ∧ s1.proc.running = false := by
    rw [runEvents_append] at h1
    cases hx : runEvents timeout initState evs1 with
    | none => rw [hx] at h1; cases h1
    | some s0 =>
        rw [hx] at h1
        simp only [Option.some_bind, runEvents] at h1
        split at h1
        · cases h1
          have hfl := process_frame_end_flags s0.proc f hf
          exact ⟨hfl.2.1, hfl.1⟩
        · cases h1
  obtain ⟨hstab1, hstab2, _, _⟩ :=
    run_stable timeout evs2 s1 s2 hflags.1 hflags.2 hmid
  exact ⟨hflags.1, hflags.2, hstab1, hstab2⟩

/-- Witness for C8: an EndFrame at time 0 followed by a (rejected)
UserStartedSpeaking at time 1. -/
theorem idle_end_stops_callbacks_witness :
    (⟨⟨false, false, false, true⟩, 0, 0, []⟩ : WState).proc.task_done = true ∧
    (⟨⟨false, false, false, true⟩, 0, 0, []⟩ : WState).proc.running = false ∧
    (⟨⟨false, false, false, true⟩, 0, 1, []⟩ : WState).fires
      = (⟨⟨false, false, false, true⟩, 0, 0, []⟩ : WState).fires ∧
    (⟨⟨false, false, false, true⟩, 0, 1, []⟩ : WState).proc.interrupted
      = (⟨⟨false, false, false, true⟩, 0, 0, []⟩ : WState).proc.interrupted :=
  idle_end_stops_callbacks 2 0 .endFrame [] [Ev.frame 1 Frame.userStartedSpeaking]
    ⟨⟨false, false, false, true⟩, 0, 0, []⟩ ⟨⟨false, false, false, true⟩, 0, 1, []⟩
    rfl (by decide) (by decide)

/-- C9: `cleanup()` is idempotent - a second call leaves the processor in
exactly the state the first call produced (and, since the idle task has then
already finished, both the cancellation and the await of the second call are
no-ops, so it completes without error). -/
theorem cleanup_idempotent (p : UserIdleProcessor) :
    p.cleanup.cleanup = p.cleanup := by
  unfold UserIdleProcessor.cleanup
  by_cases ht : p.task_done <;> simp [ht]
